import Mathlib

/-!
Verification of the deterministic core of the `one-workout` repository:
the diff-based program assembler (`src/core/workout-diff-patcher.ts`,
given here as `src/unnamed/part_005`) and the exercise matcher
(`src/unnamed/part_003`).

The TypeScript source is shallowly embedded: JS objects become structures,
in-place mutation becomes functional update, `structuredClone` is the
identity on values, JS numbers are modelled as rationals (indices, counts
and week numbers, which the source only compares and iterates with, as
integers), `Map` lookup is modelled by last-insertion-wins search over the
catalog list, and the one `throw` in the matcher becomes `Except`.
-/

namespace OneWorkout

/-- `'kg' | 'lbs'` weight unit from the schema. -/
inductive WeightUnit where
  | kg
  | lbs
deriving DecidableEq, Repr

/-- `ExerciseSetSchema` from `sdk-agents/workout-generation/schema.ts`:
`reps` is `z.number().or(z.string())`, hence a sum type. -/
structure ExerciseSet where
  setNumber : Int
  reps : Sum Rat String
  weight : Rat
  weightUnit : WeightUnit
  rpe : Option Rat
  rir : Option Rat
  restSeconds : Rat
  tempo : Option String
  notes : Option String
deriving DecidableEq, Repr

/-- `SetGroupSchema` from the schema file. -/
structure SetGroup where
  exerciseId : String
  exerciseName : String
  order : Rat
  sets : List ExerciseSet
  notes : Option String
  technicalCues : Option (List String)
deriving DecidableEq, Repr

/-- `WorkoutDaySchema` from the schema file. -/
structure WorkoutDay where
  dayNumber : Int
  dayName : String
  focus : List String
  targetMuscles : List String
  setGroups : List SetGroup
  estimatedDuration : Option Rat
  notes : Option String
deriving DecidableEq, Repr

/-- `TrainingPhase` union type from the diff patcher. -/
inductive TrainingPhase where
  | accumulation
  | intensification
  | realization
  | deload
deriving DecidableEq, Repr

/-- `WorkoutWeekSchema` from the schema file. -/
structure WorkoutWeek where
  weekNumber : Int
  phase : TrainingPhase
  focus : Option String
  days : List WorkoutDay
  notes : Option String
deriving DecidableEq, Repr

/-- `ProgressionChange` interface from the diff patcher. -/
structure ProgressionChange where
  dayNumber : Int
  exerciseIndex : Int
  setGroupIndex : Int
  reps : Rat
  weight : Option Rat
  weightLbs : Option Rat
  intensityPercent : Option Rat
  rpe : Option Rat
  rest : Option Rat
  count : Option Int
deriving DecidableEq, Repr

/-- `WeekDiff` interface from the diff patcher. -/
structure WeekDiff where
  focus : String
  notes : Option String
  changes : List ProgressionChange
deriving DecidableEq, Repr

/-- `ProgressionDiffs` interface: `week2` is required, `week3`/`week4`
optional. -/
structure ProgressionDiffs where
  week2 : WeekDiff
  week3 : Option WeekDiff
  week4 : Option WeekDiff
deriving DecidableEq, Repr

/-- JS truthiness of an optional string: `undefined` and `''` are falsy. -/
def jsTruthyStr : Option String → Bool
  | some s => s ≠ ""
  | none => false

/-- JS `a || d` for an optional number `a`: `undefined` and `0` fall back. -/
def jsOrQ (o : Option Rat) (d : Rat) : Rat :=
  match o with
  | some v => if v = 0 then d else v
  | none => d

/-- JS `list[i]` for an integer index: negative or past-the-end indices
yield `undefined`. -/
def getAt? {α : Type} (l : List α) (i : Int) : Option α :=
  if i < 0 then none else l.get? i.toNat

/-- Replacement of the element at a JS integer index (leaves the list
unchanged when the index misses, matching mutation of a found element). -/
def setAt {α : Type} (l : List α) (i : Int) (a : α) : List α :=
  if i < 0 then l else l.set i.toNat a

/-- Apply `f` to the first element satisfying `p` (the element
`Array.prototype.find` returns); no match leaves the list unchanged. -/
def updateFirst {α : Type} (p : α → Bool) (f : α → α) : List α → List α
  | [] => []
  | x :: xs => if p x then f x :: xs else x :: updateFirst p f xs

/-- `WEEK_PHASES[n] || 'accumulation'` from the diff patcher:
the record maps 1, 2 to accumulation, 3 to intensification, 4 to
realization, and everything else falls back to accumulation. -/
def phaseFor (n : Int) : TrainingPhase :=
  if n = 3 then .intensification
  else if n = 4 then .realization
  else .accumulation

/-- `progressionDiffs['week' + weekNum]`: only the keys `week2`..`week4`
exist on `ProgressionDiffs`. -/
def diffFor (d : ProgressionDiffs) (w : Int) : Option WeekDiff :=
  if w = 2 then some d.week2
  else if w = 3 then d.week3
  else if w = 4 then d.week4
  else none

/-- The `forEach` body of `applyChange`: `reps` is mandatory; `weight`,
`rpe`, `rest` overwrite only when present on the change. -/
def applySetFields (c : ProgressionChange) (s : ExerciseSet) : ExerciseSet :=
  { s with
    reps := Sum.inl c.reps
    weight := c.weight.getD s.weight
    rpe := c.rpe <|> s.rpe
    restSeconds := c.rest.getD s.restSeconds }

/-- The fallback base set of `applyChange` when the group has no sets:
`{setNumber: 1, reps: change.reps, weight: change.weight || 0,
weightUnit: 'kg', restSeconds: change.rest || 60}`. -/
def defaultBaseSet (c : ProgressionChange) : ExerciseSet :=
  { setNumber := 1
    reps := Sum.inl c.reps
    weight := jsOrQ c.weight 0
    weightUnit := .kg
    rpe := none
    rir := none
    restSeconds := jsOrQ c.rest 60
    tempo := none
    notes := none }

/-- One regenerated set from `Array.from({length: change.count}, ...)`:
a clone of the base set with `setNumber := i + 1`, the change's `reps`,
and the change's `weight`/`rpe`/`rest` where present. -/
def regenSet (c : ProgressionChange) (base : ExerciseSet) (i : Nat) : ExerciseSet :=
  { base with
    setNumber := (i : Int) + 1
    reps := Sum.inl c.reps
    weight := c.weight.getD base.weight
    rpe := c.rpe <|> base.rpe
    restSeconds := c.rest.getD base.restSeconds }

/-- The set-group part of `applyChange`: overwrite every set, then, when
`count` is present and differs from the current length, regenerate the
sets array (`Array.from` clamps a negative length to `0`). -/
def updateSetGroup (c : ProgressionChange) (g : SetGroup) : SetGroup :=
  let sets1 := g.sets.map (applySetFields c)
  match c.count with
  | some n =>
    if n ≠ (sets1.length : Int) then
      let base := sets1.head?.getD (defaultBaseSet c)
      { g with sets := (List.range n.toNat).map (regenSet c base) }
    else { g with sets := sets1 }
  | none => { g with sets := sets1 }

/-- The day part of `applyChange`: `day.setGroups[change.exerciseIndex]`;
missing index is a warn-and-skip. -/
def applyChangeToDay (c : ProgressionChange) (day : WorkoutDay) : WorkoutDay :=
  match getAt? day.setGroups c.exerciseIndex with
  | some g => { day with setGroups := setAt day.setGroups c.exerciseIndex (updateSetGroup c g) }
  | none => day

/-- `applyChange`: find the day by its own `dayNumber` (first match) and
mutate it in place; a missing day is a warn-and-skip, which the
no-match case of `updateFirst` reproduces. -/
def applyChange (week : WorkoutWeek) (c : ProgressionChange) : WorkoutWeek :=
  { week with
    days := updateFirst (fun d => d.dayNumber == c.dayNumber) (applyChangeToDay c) week.days }

/-- `applyWeekDiff`: every change in list order, then `week.notes`
overwritten when `diff.notes` is truthy. -/
def applyWeekDiff (week : WorkoutWeek) (diff : WeekDiff) : WorkoutWeek :=
  let week1 := diff.changes.foldl applyChange week
  if jsTruthyStr diff.notes then { week1 with notes := diff.notes } else week1

/-- The loop body of `assembleWeeksFromDiffs` for one week `w ≥ 2`:
deep-clone the template (the identity on values), stamp week number and
phase, and apply the week's diff when one exists. -/
def buildWeek (t : WorkoutWeek) (d : ProgressionDiffs) (w : Int) : WorkoutWeek :=
  let cloned := { t with weekNumber := w, phase := phaseFor w }
  match diffFor d w with
  | some diff => applyWeekDiff cloned diff
  | none => cloned

/-- The `for (weekNum = 2; weekNum <= durationWeeks; ...)` loop, as a
recursion on the remaining trip count. -/
def extraWeeks (t : WorkoutWeek) (d : ProgressionDiffs) : Int → Nat → List WorkoutWeek
  | _, 0 => []
  | w, k + 1 => buildWeek t d w :: extraWeeks t d (w + 1) k

/-- `assembleWeeksFromDiffs(week1Template, progressionDiffs, durationWeeks)`:
week 1 is the cloned template with `weekNumber := 1` and
`WEEK_PHASES[1]`, then one built week per loop iteration. -/
def assembleWeeksFromDiffs (t : WorkoutWeek) (d : ProgressionDiffs)
    (durationWeeks : Int) : List WorkoutWeek :=
  { t with weekNumber := 1, phase := .accumulation }
    :: extraWeeks t d 2 (durationWeeks - 1).toNat

/-! ## Exercise matcher (`src/unnamed/part_003`) -/

/-- `CatalogExercise` interface from the matcher. -/
structure CatalogExercise where
  id : String
  name : String
  category : Option String
  targetMuscles : Option (List String)
  equipment : Option (List String)
deriving DecidableEq, Repr

/-- `matchType` union of `MatchResult`; the source literal `'partial'` is a
reserved word here and is rendered `substring`. -/
inductive MatchType where
  | exact
  | normalized
  | fuzzy
  | substring
  | categoryFallback
deriving DecidableEq, Repr

/-- `MatchResult` interface from the matcher; `confidence` is a rational in
`[0, 1]`. -/
structure MatchResult where
  exerciseId : String
  exerciseName : String
  matchType : MatchType
  confidence : Rat
  originalId : Option String
  wasCorrection : Bool
deriving DecidableEq, Repr

/-- The single fatal error of the matcher: the `throw` on an empty
catalog. -/
inductive MatcherError where
  | catalogEmpty
deriving DecidableEq, Repr

/-- Equality of matcher call results is decidable. -/
instance {ε α : Type} [DecidableEq ε] [DecidableEq α] : DecidableEq (Except ε α) := fun a b =>
  match a, b with
  | .ok x, .ok y =>
    if h : x = y then .isTrue (congrArg _ h)
    else .isFalse (fun hh => h (Except.ok.inj hh))
  | .error x, .error y =>
    if h : x = y then .isTrue (congrArg _ h)
    else .isFalse (fun hh => h (Except.error.inj hh))
  | .ok _, .error _ => .isFalse Except.noConfusion
  | .error _, .ok _ => .isFalse Except.noConfusion

/-- JS `toLowerCase()` (the ASCII case the catalog uses), written over the
character list so the kernel evaluates it directly. -/
def strToLower (s : String) : String :=
  String.mk (s.data.map Char.toLower)

/-- Characters the `\s` class of the normalization regexes stands for
(the ASCII part, which is all the catalog uses). -/
def jsWs (c : Char) : Bool :=
  c = ' ' || c = '\t' || c = '\n' || c = '\r' || c = '\x0b' || c = '\x0c'

/-- Scan for the `)` closing a lazy `\(.*?\)` match: the first `)`,
provided no line terminator intervenes (`.` does not cross lines);
returns the remainder after the `)`. -/
def findClose : List Char → Option (List Char)
  | [] => none
  | c :: rest =>
    if c = ')' then some rest
    else if c = '\n' ∨ c = '\r' then none
    else findClose rest

/-- `replace(/\(.*?\)/g, '')` on fuel (structural recursion so the kernel
can evaluate it; the fuel, initialized to the length, never runs out
because every step consumes at least one character): drop every lazily
matched parenthetical; an unclosed `(` is not matched and stays. -/
def stripParensFuel : Nat → List Char → List Char
  | 0, _ => []
  | _ + 1, [] => []
  | fuel + 1, c :: rest =>
    if c = '(' then
      match findClose rest with
      | some rest' => stripParensFuel fuel rest'
      | none => c :: stripParensFuel fuel rest
    else c :: stripParensFuel fuel rest

/-- `replace(/\(.*?\)/g, '')`. -/
def stripParens (l : List Char) : List Char :=
  stripParensFuel l.length l

/-- `[^a-z0-9\s]` survivors (the name is lowercased first). -/
def keepChar (c : Char) : Bool :=
  ('a' ≤ c && c ≤ 'z') || ('0' ≤ c && c ≤ '9') || jsWs c

/-- `replace(/\s+/g, ' ')`: collapse each whitespace run to one space; the
flag remembers whether the previous character was part of a run. -/
def collapseWsGo : Bool → List Char → List Char
  | _, [] => []
  | prevWs, c :: rest =>
    if jsWs c then
      if prevWs then collapseWsGo true rest
      else ' ' :: collapseWsGo true rest
    else c :: collapseWsGo false rest

/-- `replace(/\s+/g, ' ')`. -/
def collapseWs (l : List Char) : List Char :=
  collapseWsGo false l

/-- `trim()`: strip leading and trailing whitespace. -/
def trimWs (l : List Char) : List Char :=
  ((l.dropWhile jsWs).reverse.dropWhile jsWs).reverse

/-- `normalizeName`: lowercase, drop parentheticals, drop special
characters, collapse whitespace, trim. -/
def normalizeName (name : String) : String :=
  String.mk (trimWs (collapseWs ((stripParens (strToLower name).data).filter keepChar)))

/-- One row of the Wagner-Fischer matrix from the previous one; the
arguments track the remaining chars of `a`, the value to the left
(`matrix[i][j-1]`), the diagonal (`matrix[i-1][j-1]`) and the rest of the
previous row starting at `matrix[i-1][j]`. -/
def levRow (bc : Char) : List Char → Nat → Nat → List Nat → List Nat
  | [], _, _, _ => []
  | _ :: _, _, _, [] => []
  | ac :: as, left, diag, above :: prest =>
    let cur := if bc = ac then diag
      else Nat.min (diag + 1) (Nat.min (left + 1) (above + 1))
    cur :: levRow bc as cur above prest

/-- Row `i` of the matrix (`matrix[i][0] = i`, then the recurrence). -/
def levNextRow (bc : Char) (as : List Char) (i : Nat) (prev : List Nat) : List Nat :=
  match prev with
  | p0 :: prest => i :: levRow bc as i p0 prest
  | [] => [i]

/-- `levenshteinDistance(a, b)`: the dynamic program of the source, row by
row over `b` starting from row 0 = `[0..a.length]`; the result is
`matrix[b.length][a.length]`, the last entry of the last row. -/
def levenshteinDistance (a b : String) : Nat :=
  ((b.data.foldl
      (fun (acc : List Nat × Nat) bc => (levNextRow bc a.data (acc.2 + 1) acc.1, acc.2 + 1))
      (List.range (a.data.length + 1), 0)).1.getLast?).getD 0

/-- The matcher object: the three `Map` indices are derived views of the
catalog list (built once, never mutated), so only the list is state. -/
structure ExerciseMatcher where
  catalog : List CatalogExercise
deriving DecidableEq, Repr

/-- `catalogById.get(id)`: `Map.set` makes the last inserted entry with a
given key win. -/
def lookupById (catalog : List CatalogExercise) (id : String) : Option CatalogExercise :=
  catalog.reverse.find? (fun ex => ex.id == id)

/-- `catalogByName.get(key)` with keys `ex.name.toLowerCase()`. -/
def lookupByName (catalog : List CatalogExercise) (key : String) : Option CatalogExercise :=
  catalog.reverse.find? (fun ex => strToLower ex.name == key)

/-- `catalogByNormalizedName.get(key)` with keys `normalizeName(ex.name)`. -/
def lookupByNorm (catalog : List CatalogExercise) (key : String) : Option CatalogExercise :=
  catalog.reverse.find? (fun ex => normalizeName ex.name == key)

/-- JS `hay.includes(needle)`, step 1: does `hay` start with `needle`? -/
def listStartsWith : List Char → List Char → Bool
  | _, [] => true
  | [], _ :: _ => false
  | h :: hs, n :: ns => h = n && listStartsWith hs ns

/-- JS `hay.includes(needle)` on char lists. -/
def containsSub (needle : List Char) : List Char → Bool
  | [] => needle.isEmpty
  | h :: t => listStartsWith (h :: t) needle || containsSub needle t

/-- Pipeline step 1: the valid-ID short-circuit
(`if (providedId && this.catalogById.has(providedId))`; an empty string
is falsy). -/
def tier1 (m : ExerciseMatcher) : Option String → Option MatchResult
  | some p =>
    if p = "" then none
    else
      match lookupById m.catalog p with
      | some ex => some ⟨p, ex.name, .exact, 1, some p, false⟩
      | none => none
  | none => none

/-- Pipeline step 2: exact name match, case-insensitive;
`wasCorrection := !!providedId`. -/
def tier2 (m : ExerciseMatcher) (name : String) (providedId : Option String) :
    Option MatchResult :=
  (lookupByName m.catalog (strToLower name)).map
    (fun ex => ⟨ex.id, ex.name, .exact, 1, providedId, jsTruthyStr providedId⟩)

/-- Pipeline step 3: normalized name match, confidence `0.95`. -/
def tier3 (m : ExerciseMatcher) (name : String) (providedId : Option String) :
    Option MatchResult :=
  (lookupByNorm m.catalog (normalizeName name)).map
    (fun ex => ⟨ex.id, ex.name, .normalized, 95 / 100, providedId, jsTruthyStr providedId⟩)

/-- The fuzzy scan: `bestDistance` starts at infinity and only a strictly
smaller distance replaces the incumbent, so the first entry attaining the
global minimum wins. -/
def bestFuzzyGo (nq : String) : List CatalogExercise → CatalogExercise → Nat →
    CatalogExercise × Nat
  | [], e, d => (e, d)
  | ex :: rest, e, d =>
    let d' := levenshteinDistance nq (normalizeName ex.name)
    if d' < d then bestFuzzyGo nq rest ex d'
    else bestFuzzyGo nq rest e d

/-- The fuzzy scan over the whole catalog (`null` on an empty one). -/
def bestFuzzy (catalog : List CatalogExercise) (nq : String) :
    Option (CatalogExercise × Nat) :=
  match catalog with
  | [] => none
  | ex :: rest => some (bestFuzzyGo nq rest ex (levenshteinDistance nq (normalizeName ex.name)))

/-- Pipeline step 4: accept the fuzzy best iff its distance is at most
`FUZZY_MATCH_MAX_DISTANCE = 5`;
`confidence = max(0.5, 1 - distance * 0.1)`. -/
def tier4 (m : ExerciseMatcher) (name : String) (providedId : Option String) :
    Option MatchResult :=
  match bestFuzzy m.catalog (normalizeName name) with
  | some (ex, d) =>
    if d ≤ 5 then
      some ⟨ex.id, ex.name, .fuzzy, max (1 / 2) (1 - (d : Rat) / 10), providedId,
        jsTruthyStr providedId⟩
    else none
  | none => none

/-- Pipeline step 5: first entry whose normalized name contains the
normalized query or vice versa, confidence `0.7`. -/
def tier5 (m : ExerciseMatcher) (name : String) (providedId : Option String) :
    Option MatchResult :=
  (m.catalog.find? (fun ex =>
      let en := normalizeName ex.name
      containsSub en.data (normalizeName name).data
        || containsSub (normalizeName name).data en.data)).map
    (fun ex => ⟨ex.id, ex.name, .substring, 7 / 10, providedId, jsTruthyStr providedId⟩)

/-- The guard `if (category || targetMuscles?.length)` of step 6. -/
def hintsTruthy (category : Option String) (targetMuscles : Option (List String)) : Bool :=
  jsTruthyStr category ||
    (match targetMuscles with
     | some (_ :: _) => true
     | _ => false)

/-- The filter body of step 6: `!category || ex.category === category`,
and the muscle lists intersect up to case-insensitive substring. -/
def fallbackKeeps (category : Option String) (targetMuscles : Option (List String))
    (ex : CatalogExercise) : Bool :=
  (if jsTruthyStr category then ex.category == category else true)
    && (match targetMuscles with
        | some (m :: ms) =>
          (m :: ms).any (fun mm =>
            (ex.targetMuscles.getD []).any (fun tm =>
              containsSub (strToLower mm).data (strToLower tm).data))
        | _ => true)

/-- Pipeline step 6: the category/muscle fallback, confidence `0.3`,
always a correction; empty filter result falls through. -/
def tier6 (m : ExerciseMatcher) (providedId : Option String) (category : Option String)
    (targetMuscles : Option (List String)) : Option MatchResult :=
  if hintsTruthy category targetMuscles then
    match m.catalog.filter (fallbackKeeps category targetMuscles) with
    | fallback :: _ =>
      some ⟨fallback.id, fallback.name, .categoryFallback, 3 / 10, providedId, true⟩
    | [] => none
  else none

/-- Pipeline step 7: the last resort, `catalog[0]` with confidence `0.1`
(the source also logs a warning and reuses the `category_fallback` tag). -/
def tier7 (m : ExerciseMatcher) (providedId : Option String) : Option MatchResult :=
  match m.catalog with
  | lastResort :: _ =>
    some ⟨lastResort.id, lastResort.name, .categoryFallback, 1 / 10, providedId, true⟩
  | [] => none

/-- `ExerciseMatcher.match`: the ordered pipeline, first hit wins; an
empty catalog reaches the final `throw`. -/
def ExerciseMatcher.match (m : ExerciseMatcher) (name : String)
    (providedId : Option String) (category : Option String)
    (targetMuscles : Option (List String)) : Except MatcherError MatchResult :=
  match tier1 m providedId <|> tier2 m name providedId <|> tier3 m name providedId
      <|> tier4 m name providedId <|> tier5 m name providedId
      <|> tier6 m providedId category targetMuscles <|> tier7 m providedId with
  | some r => .ok r
  | none => .error .catalogEmpty

/-- The input shape of `processSetGroups`: a set group as far as the
matcher reads and rewrites it (`exerciseId` required, `exerciseName`
optional). -/
structure MatchableGroup where
  exerciseId : String
  exerciseName : Option String
deriving DecidableEq, Repr

/-- The `{total, valid, corrected, failed}` tally. -/
structure MatchStats where
  total : Nat
  valid : Nat
  corrected : Nat
  failed : Nat
deriving DecidableEq, Repr

/-- The loop of `processSetGroups`: match each group
(`setGroup.exerciseName || ''`, `setGroup.exerciseId`, no hints), rewrite
both fields, and count the iteration as valid or corrected. -/
def processGo (m : ExerciseMatcher) :
    List MatchableGroup → List MatchableGroup → Nat → Nat →
    Except MatcherError (List MatchableGroup × Nat × Nat)
  | [], acc, v, c => .ok (acc.reverse, v, c)
  | g :: rest, acc, v, c =>
    match m.match (g.exerciseName.getD "") (some g.exerciseId) none none with
    | .error e => .error e
    | .ok r =>
      let g' : MatchableGroup := ⟨r.exerciseId, some r.exerciseName⟩
      if r.wasCorrection then processGo m rest (g' :: acc) v (c + 1)
      else processGo m rest (g' :: acc) (v + 1) c

/-- `processSetGroups`: corrected groups plus
`{total := input length, valid, corrected, failed := 0}`. -/
def processSetGroups (m : ExerciseMatcher) (setGroups : List MatchableGroup) :
    Except MatcherError (List MatchableGroup × MatchStats) :=
  (processGo m setGroups [] 0 0).map
    (fun out => (out.1, ⟨setGroups.length, out.2.1, out.2.2, 0⟩))

/-! ## Derived predicates used by the statements -/

/-- The structural signature of a day the assembler must preserve: its own
day number and its set-group count. -/
def dayShape (d : WorkoutDay) : Int × Nat :=
  (d.dayNumber, d.setGroups.length)

/-- `applyChange` skips the change (the two warn-and-return paths): the
referenced day number is absent, or the exercise index misses that day's
set groups. -/
def changeSkipped (w : WorkoutWeek) (c : ProgressionChange) : Bool :=
  match w.days.find? (fun d => d.dayNumber == c.dayNumber) with
  | none => true
  | some day => (getAt? day.setGroups c.exerciseIndex).isNone

/-- A match result that names a genuine catalog entry. -/
def resultInCatalog (m : ExerciseMatcher) (r : MatchResult) : Prop :=
  ∃ e ∈ m.catalog, r.exerciseId = e.id ∧ r.exerciseName = e.name

/-! ## Concrete fixtures for witnesses and counterexamples -/

/-- A 3-set, 10-rep, 60 kg working set. -/
def exSetFix : ExerciseSet :=
  ⟨1, Sum.inl 10, 60, .kg, none, none, 90, none, none⟩

/-- A set group with three sets. -/
def groupFix : SetGroup :=
  ⟨"ex1", "Bench", 1, [exSetFix, { exSetFix with setNumber := 2 },
    { exSetFix with setNumber := 3 }], none, none⟩

/-- A one-day template day (day number 1). -/
def dayFix : WorkoutDay :=
  ⟨1, "Push", [], [], [groupFix], none, none⟩

/-- A template week with one day and template notes. -/
def tFix : WorkoutWeek :=
  ⟨7, .deload, none, [dayFix], some "orig"⟩

/-- A well-formed change for day 1, exercise 0. -/
def changeFix : ProgressionChange :=
  ⟨1, 0, 0, 8, some 65, none, none, none, none, none⟩

/-- A change referencing nonexistent day 2. -/
def changeBadDay : ProgressionChange :=
  ⟨2, 0, 0, 8, some 65, none, none, none, none, none⟩

/-- A change carrying a negative `count`. -/
def changeNegCount : ProgressionChange :=
  ⟨1, 0, 0, 12, none, none, none, none, none, some (-1)⟩

/-- A change regenerating to two sets with new reps and weight. -/
def changeCnt2 : ProgressionChange :=
  ⟨1, 0, 0, 12, some 70, none, none, none, none, some 2⟩

/-- A change whose `count` equals the group's current three sets, so no
regeneration happens and the overwrite pass alone stands. -/
def changeCnt3Eq : ProgressionChange :=
  ⟨1, 0, 0, 9, some 72, none, none, none, none, some 3⟩

/-- A diff map whose week-2 diff holds the good change. -/
def diffsFix : ProgressionDiffs :=
  ⟨⟨"f", none, [changeFix]⟩, none, none⟩

/-- A diff map whose week-2 diff holds only the bad-day change, plus
diff notes. -/
def diffsBadNotes : ProgressionDiffs :=
  ⟨⟨"f", some "patched", [changeBadDay]⟩, none, none⟩

/-- The bench-press catalog entry of the spec's fuzzy test. -/
def benchEntry : CatalogExercise :=
  ⟨"bp", "Barbell Bench Press", none, none, none⟩

/-- A matcher over the singleton bench-press catalog. -/
def mBench : ExerciseMatcher := ⟨[benchEntry]⟩

/-- A matcher whose only entry has the empty string as id. -/
def mEmptyId : ExerciseMatcher := ⟨[⟨"", "A", none, none, none⟩]⟩

/-- A matcher with a single cardio entry named Alpha. -/
def mAlpha : ExerciseMatcher := ⟨[⟨"e1", "Alpha", some "cardio", none, none⟩]⟩

/-- A matcher whose only entry's name normalizes to the empty string. -/
def mQm : ExerciseMatcher := ⟨[⟨"1", "???", none, none, none⟩]⟩

/-- A matcher with one short-named entry (normalized length 3). -/
def mRow : ExerciseMatcher := ⟨[⟨"e1", "Row", none, none, none⟩]⟩

/-- A matcher with one long-named entry (normalized length 8). -/
def mLong : ExerciseMatcher := ⟨[⟨"e1", "Abcdefgh", none, none, none⟩]⟩

/-! ## Structural preservation of the assembler -/

theorem setAt_length {α : Type} (l : List α) (i : Int) (a : α) :
    (setAt l i a).length = l.length := by
  unfold setAt
  split <;> simp

theorem applyChangeToDay_shape (c : ProgressionChange) (day : WorkoutDay) :
    dayShape (applyChangeToDay c day) = dayShape day := by
  unfold applyChangeToDay
  cases hg : getAt? day.setGroups c.exerciseIndex <;> simp [dayShape, setAt_length]

theorem updateFirst_map_of_preserve {α β : Type} (p : α → Bool) (f : α → α) (g : α → β)
    (hf : ∀ a, g (f a) = g a) : ∀ l : List α, (updateFirst p f l).map g = l.map g := by
  intro l
  induction l with
  | nil => rfl
  | cons x xs ih =>
    simp only [updateFirst]
    split
    · simp [hf]
    · simp [ih]

theorem applyChange_shapes (w : WorkoutWeek) (c : ProgressionChange) :
    (applyChange w c).days.map dayShape = w.days.map dayShape :=
  updateFirst_map_of_preserve _ _ _ (fun d => applyChangeToDay_shape c d) w.days

theorem foldl_applyChange_shapes (cs : List ProgressionChange) : ∀ w : WorkoutWeek,
    (cs.foldl applyChange w).days.map dayShape = w.days.map dayShape := by
  induction cs with
  | nil => intro w; rfl
  | cons c cs ih => intro w; rw [List.foldl_cons, ih, applyChange_shapes]

theorem applyWeekDiff_shapes (w : WorkoutWeek) (diff : WeekDiff) :
    (applyWeekDiff w diff).days.map dayShape = w.days.map dayShape := by
  unfold applyWeekDiff
  split
  · exact foldl_applyChange_shapes _ _
  · exact foldl_applyChange_shapes _ _

theorem buildWeek_shapes (t : WorkoutWeek) (d : ProgressionDiffs) (w : Int) :
    (buildWeek t d w).days.map dayShape = t.days.map dayShape := by
  unfold buildWeek
  cases diffFor d w with
  | none => rfl
  | some diff => rw [applyWeekDiff_shapes]

theorem extraWeeks_length (t : WorkoutWeek) (d : ProgressionDiffs) :
    ∀ (k : Nat) (w : Int), (extraWeeks t d w k).length = k := by
  intro k
  induction k with
  | zero => intro w; rfl
  | succ k ih => intro w; simp [extraWeeks, ih]

theorem mem_extraWeeks (t : WorkoutWeek) (d : ProgressionDiffs) :
    ∀ (k : Nat) (w : Int) (x : WorkoutWeek), x ∈ extraWeeks t d w k →
      ∃ w', x = buildWeek t d w' := by
  intro k
  induction k with
  | zero => intro w x hx; simp [extraWeeks] at hx
  | succ k ih =>
    intro w x hx
    rcases List.mem_cons.mp hx with h | h
    · exact ⟨w, h⟩
    · exact ih (w + 1) x h

theorem extraWeeks_get? (t : WorkoutWeek) (d : ProgressionDiffs) :
    ∀ (k : Nat) (w : Int) (j : Nat), j < k →
      (extraWeeks t d w k).get? j = some (buildWeek t d (w + j)) := by
  intro k
  induction k with
  | zero => intro w j hj; omega
  | succ k ih =>
    intro w j hj
    cases j with
    | zero => simp [extraWeeks]
    | succ j =>
      show (extraWeeks t d (w + 1) k).get? j = _
      rw [ih (w + 1) j (by omega)]
      congr 1
      push_cast
      ring

/-- **C1** (corrected: the claim needs `durationWeeks ≥ 1`, since the
assembler always emits week 1). For every template, diff map and
`durationWeeks = N ≥ 1`, the output has length `N`, every week has the
template's day count, and the day at each index keeps exactly the
template's set-group count — also when a week's diff is absent, empty, or
omits exercises. -/
theorem assemble_structural_invariant (t : WorkoutWeek) (d : ProgressionDiffs)
    (N : Int) (hN : 1 ≤ N) :
    ((assembleWeeksFromDiffs t d N).length : Int) = N ∧
    ∀ w ∈ assembleWeeksFromDiffs t d N,
      w.days.length = t.days.length ∧
      ∀ i : Nat, (w.days.get? i).map (fun dy => dy.setGroups.length)
          = (t.days.get? i).map (fun dy => dy.setGroups.length) := by
  constructor
  · simp only [assembleWeeksFromDiffs, List.length_cons, extraWeeks_length]
    omega
  · intro w hw
    have hsh : w.days.map dayShape = t.days.map dayShape := by
      rcases List.mem_cons.mp hw with h | h
      · rw [h]
      · obtain ⟨w', rfl⟩ := mem_extraWeeks t d _ _ _ h
        exact buildWeek_shapes t d w'
    constructor
    · have := congrArg List.length hsh
      simpa using this
    · intro i
      have h2 := congrArg (fun l => (l.get? i).map Prod.snd) hsh
      simpa [List.get?_map, Option.map_map, dayShape, Function.comp] using h2

/-- **C1 counterexample**: at `durationWeeks = 0` the assembler still
returns one week (week 1 is pushed unconditionally), so the output length
differs from `durationWeeks`. -/
theorem assemble_length_at_zero_weeks :
    (assembleWeeksFromDiffs tFix diffsFix 0).length = 1 ∧ (1 : Int) ≠ 0 := by
  constructor
  · rfl
  · decide

/-- Witness for the corrected C1 at a three-week program. -/
theorem assemble_structural_invariant_witness :
    (1 : Int) ≤ 3 ∧ ((assembleWeeksFromDiffs tFix diffsFix 3).length : Int) = 3 :=
  ⟨by decide, (assemble_structural_invariant tFix diffsFix 3 (by decide)).1⟩

/-- **C2**: the assembler is a pure function of the template value (so the
`week1Template` argument stays intact), week 1 is the value-identical
clone of the template apart from its stamped number and phase, and every
later week equals `buildWeek t d w` — a function of the original template
and of that week's own diff alone, never of the previous output week:
replacing the diff map by any map that agrees at week `w` leaves week `w`
unchanged. Object-level sharing is not observable in this value
semantics; its intent is captured by this independence. -/
theorem assemble_weeks_from_original_template (t : WorkoutWeek)
    (d : ProgressionDiffs) (N : Int) :
    (assembleWeeksFromDiffs t d N).head?
        = some { t with weekNumber := 1, phase := .accumulation } ∧
    ∀ w : Int, 2 ≤ w → w ≤ N →
      (assembleWeeksFromDiffs t d N).get? (w - 1).toNat = some (buildWeek t d w) ∧
      ∀ d' : ProgressionDiffs, diffFor d' w = diffFor d w →
        (assembleWeeksFromDiffs t d' N).get? (w - 1).toNat
          = (assembleWeeksFromDiffs t d N).get? (w - 1).toNat := by
  constructor
  · rfl
  · intro w h2 hN
    have hj : (w - 1).toNat = (w - 2).toNat + 1 := by omega
    have hlt : (w - 2).toNat < (N - 1).toNat := by omega
    have hw2 : (2 : Int) + ((w - 2).toNat : Int) = w := by omega
    have hget : (assembleWeeksFromDiffs t d N).get? (w - 1).toNat
        = some (buildWeek t d w) := by
      show (_ :: extraWeeks t d 2 (N - 1).toNat).get? (w - 1).toNat = _
      rw [hj]
      show (extraWeeks t d 2 (N - 1).toNat).get? (w - 2).toNat = _
      rw [extraWeeks_get? t d _ _ _ hlt, hw2]
    refine ⟨hget, ?_⟩
    intro d' hd'
    have hget' : (assembleWeeksFromDiffs t d' N).get? (w - 1).toNat
        = some (buildWeek t d' w) := by
      show (_ :: extraWeeks t d' 2 (N - 1).toNat).get? (w - 1).toNat = _
      rw [hj]
      show (extraWeeks t d' 2 (N - 1).toNat).get? (w - 2).toNat = _
      rw [extraWeeks_get? t d' _ _ _ hlt, hw2]
    rw [hget, hget']
    unfold buildWeek
    rw [hd']

/-- Witness for C2 at week 2 of a three-week program. -/
theorem assemble_weeks_from_original_template_witness :
    ((2 : Int) ≤ 2 ∧ (2 : Int) ≤ 3) ∧
    (assembleWeeksFromDiffs tFix diffsFix 3).get? 1 = some (buildWeek tFix diffsFix 2) := by
  refine ⟨by decide, ?_⟩
  have h := ((assemble_weeks_from_original_template tFix diffsFix 3).2 2
    (by decide) (by decide)).1
  simpa using h

/-! ## Skipped changes (C3) -/

theorem updateFirst_of_none {α : Type} (p : α → Bool) (f : α → α) :
    ∀ l : List α, (∀ a ∈ l, p a = false) → updateFirst p f l = l := by
  intro l
  induction l with
  | nil => intro _; rfl
  | cons x xs ih =>
    intro h
    simp only [updateFirst, h x (List.mem_cons_self x xs)]
    simp [ih (fun a ha => h a (List.mem_cons_of_mem x ha))]

theorem updateFirst_of_fix {α : Type} (p : α → Bool) (f : α → α) :
    ∀ l : List α, ∀ a, l.find? p = some a → f a = a → updateFirst p f l = l := by
  intro l
  induction l with
  | nil => intro a ha; simp [List.find?] at ha
  | cons x xs ih =>
    intro a ha hfa
    by_cases hx : p x
    · rw [List.find?_cons_of_pos _ hx] at ha
      cases ha
      simp [updateFirst, hx, hfa]
    · rw [List.find?_cons_of_neg _ hx] at ha
      simp only [updateFirst, hx]
      simp [ih a ha hfa]

theorem isNone_get? {α : Type} (l : List α) (n : Nat) :
    (l.get? n).isNone = decide (l.length ≤ n) := by
  by_cases h : l.length ≤ n
  · simp [List.get?_eq_none.mpr h, h]
  · have hn : n < l.length := Nat.lt_of_not_le h
    rw [List.get?_eq_get hn]
    simp [h]

theorem getAt?_isNone_congr {α : Type} (l₁ l₂ : List α) (i : Int)
    (h : l₁.length = l₂.length) : (getAt? l₁ i).isNone = (getAt? l₂ i).isNone := by
  unfold getAt?
  split
  · rfl
  · rw [isNone_get?, isNone_get?, h]

theorem find?_shape_aligned (n : Int) :
    ∀ (l₁ l₂ : List WorkoutDay), l₁.map dayShape = l₂.map dayShape →
      (l₁.find? (fun d => d.dayNumber == n)).map dayShape
        = (l₂.find? (fun d => d.dayNumber == n)).map dayShape := by
  intro l₁
  induction l₁ with
  | nil =>
    intro l₂ h
    cases l₂ with
    | nil => rfl
    | cons y ys => simp at h
  | cons x xs ih =>
    intro l₂ h
    cases l₂ with
    | nil => simp at h
    | cons y ys =>
      simp only [List.map_cons, List.cons.injEq] at h
      have hnum : x.dayNumber = y.dayNumber := congrArg Prod.fst h.1
      have hcond : (y.dayNumber == n) = (x.dayNumber == n) := by rw [hnum]
      simp only [List.find?]
      rw [hcond]
      cases hp : (x.dayNumber == n) with
      | true => simpa using h.1
      | false => simpa using ih ys h.2

theorem changeSkipped_congr (w₁ w₂ : WorkoutWeek) (c : ProgressionChange)
    (h : w₁.days.map dayShape = w₂.days.map dayShape) :
    changeSkipped w₁ c = changeSkipped w₂ c := by
  unfold changeSkipped
  have halign := find?_shape_aligned c.dayNumber w₁.days w₂.days h
  cases h₁ : w₁.days.find? (fun d => d.dayNumber == c.dayNumber) with
  | none =>
    rw [h₁] at halign
    cases h₂ : w₂.days.find? (fun d => d.dayNumber == c.dayNumber) with
    | none => rfl
    | some d₂ => rw [h₂] at halign; simp at halign
  | some d₁ =>
    rw [h₁] at halign
    cases h₂ : w₂.days.find? (fun d => d.dayNumber == c.dayNumber) with
    | none => rw [h₂] at halign; simp at halign
    | some d₂ =>
      rw [h₂] at halign
      have hshape : dayShape d₁ = dayShape d₂ := by simpa using halign
      have hlen : d₁.setGroups.length = d₂.setGroups.length :=
        congrArg Prod.snd hshape
      exact getAt?_isNone_congr _ _ _ hlen

theorem applyChange_skip (w : WorkoutWeek) (c : ProgressionChange)
    (h : changeSkipped w c = true) : applyChange w c = w := by
  unfold changeSkipped at h
  unfold applyChange
  cases hf : w.days.find? (fun d => d.dayNumber == c.dayNumber) with
  | none =>
    have hall : ∀ a ∈ w.days, (a.dayNumber == c.dayNumber) = false := by
      intro a ha
      simpa using List.find?_eq_none.mp hf a ha
    rw [updateFirst_of_none _ _ _ hall]
  | some day =>
    rw [hf] at h
    have h2 : (getAt? day.setGroups c.exerciseIndex).isNone = true := h
    have hnone : getAt? day.setGroups c.exerciseIndex = none :=
      Option.isNone_iff_eq_none.mp h2
    have hfix : applyChangeToDay c day = day := by
      unfold applyChangeToDay
      rw [hnone]
    rw [updateFirst_of_fix _ _ _ _ hf hfix]

theorem changeSkipped_foldl (cs : List ProgressionChange) (w : WorkoutWeek)
    (c : ProgressionChange) (h : changeSkipped w c = true) :
    changeSkipped (cs.foldl applyChange w) c = true := by
  rw [changeSkipped_congr _ w _ (foldl_applyChange_shapes cs w)]
  exact h

/-- **C3** (corrected: the diff's `notes`, when non-empty, also overwrite
the clone's notes, so the "unmodified apart from weekNumber and phase"
clause additionally excludes `notes`). A change whose day number or
exercise index misses the template is skipped as a no-op, the remaining
changes are still applied, and a week whose diff holds exactly one such
change and no notes comes out as the untouched clone, with only week
number and phase stamped. -/
theorem skipped_change_is_noop :
    (∀ (w : WorkoutWeek) (c : ProgressionChange),
      changeSkipped w c = true → applyChange w c = w) ∧
    (∀ (w : WorkoutWeek) (c : ProgressionChange)
        (cs₁ cs₂ : List ProgressionChange), changeSkipped w c = true →
      (cs₁ ++ c :: cs₂).foldl applyChange w = (cs₁ ++ cs₂).foldl applyChange w) ∧
    (∀ (t : WorkoutWeek) (focus : String) (c : ProgressionChange) (N : Int),
      changeSkipped t c = true → 2 ≤ N →
      (assembleWeeksFromDiffs t ⟨⟨focus, none, [c]⟩, none, none⟩ N).get? 1
        = some { t with weekNumber := 2, phase := .accumulation }) := by
  refine ⟨applyChange_skip, ?_, ?_⟩
  · intro w c cs₁ cs₂ h
    rw [List.foldl_append, List.foldl_append, List.foldl_cons,
      applyChange_skip _ _ (changeSkipped_foldl cs₁ w c h)]
  · intro t focus c N hskip hN
    have h0 : (0 : Nat) < (N - 1).toNat := by omega
    have hget : (assembleWeeksFromDiffs t ⟨⟨focus, none, [c]⟩, none, none⟩ N).get? 1
        = some (buildWeek t ⟨⟨focus, none, [c]⟩, none, none⟩ 2) := by
      show (_ :: extraWeeks t _ 2 (N - 1).toNat).get? 1 = _
      show (extraWeeks t _ 2 (N - 1).toNat).get? 0 = _
      rw [extraWeeks_get? t _ _ _ _ h0]
      norm_num
    rw [hget]
    unfold buildWeek
    show some (applyWeekDiff { t with weekNumber := 2, phase := phaseFor 2 }
      ⟨focus, none, [c]⟩) = _
    unfold applyWeekDiff
    have hskip' : changeSkipped { t with weekNumber := 2, phase := phaseFor 2 } c = true :=
      hskip
    simp only [List.foldl_cons, List.foldl_nil, applyChange_skip _ _ hskip', jsTruthyStr]
    rfl

/-- **C3 counterexample**: a diff whose only change references the missing
day 2 but which carries notes produces a week that differs from the plain
clone — the notes were overwritten too. -/
theorem skipped_change_notes_overwrite :
    changeSkipped tFix changeBadDay = true ∧
    diffsBadNotes.week2.changes = [changeBadDay] ∧
    (assembleWeeksFromDiffs tFix diffsBadNotes 2).get? 1
      ≠ some { tFix with weekNumber := 2, phase := .accumulation } ∧
    (assembleWeeksFromDiffs tFix diffsBadNotes 2).get? 1
      = some { tFix with weekNumber := 2, phase := .accumulation, notes := some "patched" } := by
  refine ⟨by decide, rfl, by decide, by decide⟩

/-- Witness for the corrected C3: missing-day diff without notes yields
the untouched clone. -/
theorem skipped_change_is_noop_witness :
    (changeSkipped tFix changeBadDay = true ∧ (2 : Int) ≤ 2) ∧
    (assembleWeeksFromDiffs tFix ⟨⟨"f", none, [changeBadDay]⟩, none, none⟩ 2).get? 1
      = some { tFix with weekNumber := 2, phase := .accumulation } :=
  ⟨⟨by decide, by decide⟩,
    skipped_change_is_noop.2.2 tFix "f" changeBadDay 2 (by decide) (by decide)⟩

/-- **C4** (corrected: the count-regeneration clause needs a nonnegative
`count`, since `Array.from` clamps a negative length to zero sets).
Applying one change to a located set-group: (1) on every resulting set,
whatever the `count`, the change's `reps` lands, and each of `weight`,
`rpe`, `rest` lands when present in the change; (2) whenever no
regeneration happens — `count` absent or equal to the current set
count — each set keeps its position and gets exactly the change's
present fields, the absent ones untouched; (3) with a nonnegative
`count` different from the current set count, the sets array is
regenerated to exactly `count` sets numbered `1..count`, each a copy of
the (already updated) first set — or of the default base when the group
was empty — carrying the change's `reps` and its present
`weight`/`rpe`/`rest`. -/
theorem update_set_group_semantics (c : ProgressionChange) (g : SetGroup) :
    (∀ s ∈ (updateSetGroup c g).sets,
      s.reps = Sum.inl c.reps ∧
      (∀ v, c.weight = some v → s.weight = v) ∧
      (∀ v, c.rpe = some v → s.rpe = some v) ∧
      (∀ v, c.rest = some v → s.restSeconds = v)) ∧
    (c.count = none ∨ c.count = some (g.sets.length : Int) →
      (updateSetGroup c g).sets.length = g.sets.length ∧
      ∀ (i : Nat) (s0 : ExerciseSet), g.sets.get? i = some s0 →
        (updateSetGroup c g).sets.get? i = some
          { s0 with
            reps := Sum.inl c.reps
            weight := c.weight.getD s0.weight
            rpe := c.rpe <|> s0.rpe
            restSeconds := c.rest.getD s0.restSeconds }) ∧
    (∀ n : Int, c.count = some n → 0 ≤ n → n ≠ (g.sets.length : Int) →
      ((updateSetGroup c g).sets.length : Int) = n ∧
      ∀ (i : Nat) (s' : ExerciseSet), (updateSetGroup c g).sets.get? i = some s' →
        s'.setNumber = (i : Int) + 1 ∧ s'.reps = Sum.inl c.reps ∧
        s' = regenSet c ((g.sets.head?.map (applySetFields c)).getD (defaultBaseSet c)) i) := by
  refine ⟨?_, ?_, ?_⟩
  · intro s hs
    unfold updateSetGroup at hs
    cases hc : c.count with
    | none =>
      rw [hc] at hs
      simp only [List.mem_map] at hs
      obtain ⟨s0, _, rfl⟩ := hs
      exact ⟨rfl, fun v hv => by simp [applySetFields, hv],
        fun v hv => by simp [applySetFields, hv],
        fun v hv => by simp [applySetFields, hv]⟩
    | some n =>
      rw [hc] at hs
      by_cases hne : n ≠ ((g.sets.map (applySetFields c)).length : Int)
      · simp only [if_pos hne, List.mem_map] at hs
        obtain ⟨i, _, rfl⟩ := hs
        exact ⟨rfl, fun v hv => by simp [regenSet, hv],
          fun v hv => by simp [regenSet, hv],
          fun v hv => by simp [regenSet, hv]⟩
      · simp only [if_neg hne, List.mem_map] at hs
        obtain ⟨s0, _, rfl⟩ := hs
        exact ⟨rfl, fun v hv => by simp [applySetFields, hv],
          fun v hv => by simp [applySetFields, hv],
          fun v hv => by simp [applySetFields, hv]⟩
  · intro hc
    have hsets : (updateSetGroup c g).sets = g.sets.map (applySetFields c) := by
      rcases hc with hc | hc
      · simp [updateSetGroup, hc]
      · simp only [updateSetGroup, hc]
        rw [if_neg (by simp)]
    constructor
    · rw [hsets, List.length_map]
    · intro i s0 hi
      rw [hsets, List.get?_map, hi]
      rfl
  · intro n hc h0 hne
    have hne' : n ≠ ((g.sets.map (applySetFields c)).length : Int) := by
      simpa using hne
    have hsets : (updateSetGroup c g).sets = (List.range n.toNat).map
        (regenSet c ((g.sets.map (applySetFields c)).head?.getD (defaultBaseSet c))) := by
      simp only [updateSetGroup, hc]
      rw [if_pos hne']
    constructor
    · rw [hsets]
      simp only [List.length_map, List.length_range]
      omega
    · intro i s' hi
      rw [hsets] at hi
      rw [List.get?_map] at hi
      by_cases hlt : i < n.toNat
      · rw [List.get?_range hlt] at hi
        simp only [Option.map_some'] at hi
        have hi' : regenSet c ((g.sets.map (applySetFields c)).head?.getD
            (defaultBaseSet c)) i = s' := Option.some.inj hi
        rw [List.head?_map] at hi'
        exact ⟨by rw [← hi']; rfl, by rw [← hi']; rfl, hi'.symm⟩
      · rw [List.get?_eq_none.mpr (by simpa using Nat.le_of_not_lt hlt)] at hi
        simp at hi

/-- **C4 counterexample**: a present `count = -1` differs from the group's
3 sets, yet the regenerated array has 0 sets, not `count` sets. -/
theorem update_set_group_negative_count :
    changeNegCount.count = some (-1) ∧ (-1 : Int) ≠ (groupFix.sets.length : Int) ∧
    ((updateSetGroup changeNegCount groupFix).sets.length : Int) = 0 ∧
    (0 : Int) ≠ (-1 : Int) := by
  refine ⟨rfl, by decide, by decide, by decide⟩

/-- Witness for the corrected C4: `count = 2` regenerates a 3-set group
to two sets; `count = 3` against the same group leaves the count
untouched (the no-regeneration clause). -/
theorem update_set_group_semantics_witness :
    (changeCnt2.count = some 2 ∧ (0 : Int) ≤ 2 ∧ (2 : Int) ≠ (groupFix.sets.length : Int)) ∧
    ((updateSetGroup changeCnt2 groupFix).sets.length : Int) = 2 ∧
    (changeCnt3Eq.count = some (groupFix.sets.length : Int) ∧
      (updateSetGroup changeCnt3Eq groupFix).sets.length = groupFix.sets.length) :=
  ⟨⟨rfl, by decide, by decide⟩,
    ((update_set_group_semantics changeCnt2 groupFix).2.2 2 rfl (by decide) (by decide)).1,
    by decide,
    ((update_set_group_semantics changeCnt3Eq groupFix).2.1 (Or.inr (by decide))).1⟩

/-! ## Matcher claims -/

/-- **C7**: constructing a matcher over the empty catalog is a plain value
(always succeeds); every `match` call on it then fails with the
catalog-empty error, for all arguments. -/
theorem match_on_empty_catalog_fails (name : String) (pid cat : Option String)
    (tms : Option (List String)) :
    ExerciseMatcher.match ⟨[]⟩ name pid cat tms = .error .catalogEmpty := by
  have h1 : tier1 ⟨[]⟩ pid = none := by
    cases pid with
    | none => rfl
    | some p =>
      by_cases hp : p = ""
      · simp [tier1, hp]
      · simp [tier1, hp, lookupById]
  have h2 : tier2 ⟨[]⟩ name pid = none := by simp [tier2, lookupByName]
  have h3 : tier3 ⟨[]⟩ name pid = none := by simp [tier3, lookupByNorm]
  have h4 : tier4 ⟨[]⟩ name pid = none := rfl
  have h5 : tier5 ⟨[]⟩ name pid = none := by simp [tier5]
  have h6 : tier6 ⟨[]⟩ pid cat tms = none := by
    unfold tier6
    split
    · rfl
    · rfl
  have h7 : tier7 ⟨[]⟩ pid = none := rfl
  unfold ExerciseMatcher.match
  rw [h1, h2, h3, h4, h5, h6, h7]
  rfl

/-- **C5** (corrected: JS truthiness makes an empty-string `providedId`
fall through tier 1, and `wasCorrection` tracks a *non-empty* provided
id). A non-empty `providedId` found in the id index short-circuits to
`{exerciseId := providedId, exact, 1.0, wasCorrection := false}`
regardless of the name; otherwise a case-insensitive name-index hit
returns the indexed entry with `exact`, `1.0`, and `wasCorrection` true
exactly when a non-empty `providedId` was supplied. -/
theorem match_valid_id_and_exact_name (m : ExerciseMatcher) (name : String)
    (pid cat : Option String) (tms : Option (List String)) :
    (∀ (p : String) (ex : CatalogExercise), pid = some p → p ≠ "" →
      lookupById m.catalog p = some ex →
      m.match name pid cat tms = .ok ⟨p, ex.name, .exact, 1, pid, false⟩) ∧
    (tier1 m pid = none → ∀ ex : CatalogExercise,
      lookupByName m.catalog (strToLower name) = some ex →
      m.match name pid cat tms = .ok ⟨ex.id, ex.name, .exact, 1, pid, jsTruthyStr pid⟩) := by
  constructor
  · intro p ex hp hne hlook
    subst hp
    have h1 : tier1 m (some p) = some ⟨p, ex.name, .exact, 1, some p, false⟩ := by
      simp only [tier1]
      rw [if_neg hne, hlook]
    unfold ExerciseMatcher.match
    rw [h1]
    rfl
  · intro h1 ex hlook
    have h2 : tier2 m name pid = some ⟨ex.id, ex.name, .exact, 1, pid, jsTruthyStr pid⟩ := by
      unfold tier2
      rw [hlook]
      rfl
    unfold ExerciseMatcher.match
    rw [h1, h2]
    rfl

/-- **C5 counterexample**: the empty string is a catalog id and is passed
as `providedId`, so it is in the id index; yet the call does not
short-circuit (JS falsiness) and ends in the last resort with
`wasCorrection := true`. -/
theorem match_empty_provided_id :
    lookupById mEmptyId.catalog "" = some ⟨"", "A", none, none, none⟩ ∧
    ExerciseMatcher.match mEmptyId "zzzzzzzzzz" (some "") none none
      = .ok ⟨"", "A", .categoryFallback, 1 / 10, some "", true⟩ ∧
    MatchType.categoryFallback ≠ MatchType.exact := by
  refine ⟨rfl, rfl, by decide⟩

/-- Witness for the corrected C5: a valid non-empty id is trusted; a bogus
id is corrected through the exact-name tier. -/
theorem match_valid_id_and_exact_name_witness :
    ExerciseMatcher.match mAlpha "Alpha" (some "e1") none none
      = .ok ⟨"e1", "Alpha", .exact, 1, some "e1", false⟩ ∧
    ExerciseMatcher.match mAlpha "Alpha" (some "bogus-id") none none
      = .ok ⟨"e1", "Alpha", .exact, 1, some "bogus-id", jsTruthyStr (some "bogus-id")⟩ :=
  ⟨(match_valid_id_and_exact_name mAlpha "Alpha" (some "e1") none none).1
      "e1" ⟨"e1", "Alpha", some "cardio", none, none⟩ rfl (by decide) (by decide),
   (match_valid_id_and_exact_name mAlpha "Alpha" (some "bogus-id") none none).2
      (by decide) ⟨"e1", "Alpha", some "cardio", none, none⟩ (by decide)⟩

/-- **C8** (corrected: the last resort is also reached when hints were
supplied but the filter kept no candidate, and an empty-string category
is falsy). When the first five tiers miss: if the truthy hints select at
least one candidate the call resolves in the category/muscle fallback
(confidence `0.3`) and never reaches the last resort; the last resort
(first catalog entry, confidence `0.1`, `wasCorrection := true`) is
returned exactly when the hints are falsy or the filter is empty. -/
theorem match_fallback_vs_last_resort (m : ExerciseMatcher) (name : String)
    (pid cat : Option String) (tms : Option (List String))
    (h1 : tier1 m pid = none) (h2 : tier2 m name pid = none)
    (h3 : tier3 m name pid = none) (h4 : tier4 m name pid = none)
    (h5 : tier5 m name pid = none) :
    (hintsTruthy cat tms = true →
      ∀ (c0 : CatalogExercise) (cs : List CatalogExercise),
        m.catalog.filter (fallbackKeeps cat tms) = c0 :: cs →
        m.match name pid cat tms = .ok ⟨c0.id, c0.name, .categoryFallback, 3 / 10, pid, true⟩) ∧
    ((hintsTruthy cat tms = false ∨ m.catalog.filter (fallbackKeeps cat tms) = []) →
      ∀ (e0 : CatalogExercise) (es : List CatalogExercise), m.catalog = e0 :: es →
        m.match name pid cat tms = .ok ⟨e0.id, e0.name, .categoryFallback, 1 / 10, pid, true⟩) := by
  constructor
  · intro hh c0 cs hf
    have h6 : tier6 m pid cat tms
        = some ⟨c0.id, c0.name, .categoryFallback, 3 / 10, pid, true⟩ := by
      unfold tier6
      rw [if_pos hh, hf]
    unfold ExerciseMatcher.match
    rw [h1, h2, h3, h4, h5, h6]
    rfl
  · intro hor e0 es hcat
    have h6 : tier6 m pid cat tms = none := by
      unfold tier6
      by_cases hh : hintsTruthy cat tms = true
      · rcases hor with hfalse | hempty
        · rw [hh] at hfalse; cases hfalse
        · rw [if_pos hh, hempty]
      · rw [if_neg hh]
    have h7 : tier7 m pid = some ⟨e0.id, e0.name, .categoryFallback, 1 / 10, pid, true⟩ := by
      unfold tier7
      rw [hcat]
    unfold ExerciseMatcher.match
    rw [h1, h2, h3, h4, h5, h6, h7]
    rfl

/-- **C8 counterexample**: a (truthy) category hint is supplied, the
earlier tiers miss, and yet the call returns the last resort
(confidence `0.1`), because no catalog entry survives the hint filter. -/
theorem match_last_resort_despite_hints :
    hintsTruthy (some "strength") none = true ∧
    ExerciseMatcher.match mAlpha "zzzzzzzzzz" none (some "strength") none
      = .ok ⟨"e1", "Alpha", .categoryFallback, 1 / 10, none, true⟩ ∧
    (1 : Rat) / 10 ≠ 3 / 10 := by
  refine ⟨rfl, rfl, by norm_num⟩

/-- Witness for the corrected C8: with a matching category the call
resolves in the fallback tier; with no hints it takes the last resort. -/
theorem match_fallback_vs_last_resort_witness :
    ExerciseMatcher.match mAlpha "zzzzzzzzzz" none (some "cardio") none
      = .ok ⟨"e1", "Alpha", .categoryFallback, 3 / 10, none, true⟩ ∧
    ExerciseMatcher.match mAlpha "zzzzzzzzzz" none none none
      = .ok ⟨"e1", "Alpha", .categoryFallback, 1 / 10, none, true⟩ :=
  ⟨(match_fallback_vs_last_resort mAlpha "zzzzzzzzzz" none (some "cardio") none
      rfl rfl rfl rfl rfl).1 rfl ⟨"e1", "Alpha", some "cardio", none, none⟩ [] rfl,
   (match_fallback_vs_last_resort mAlpha "zzzzzzzzzz" none none none
      rfl rfl rfl rfl rfl).2 (Or.inl rfl) ⟨"e1", "Alpha", some "cardio", none, none⟩ [] rfl⟩

/-! ## Every tier names a genuine catalog entry (C9) -/

theorem mem_of_find?_reverse {p : CatalogExercise → Bool}
    {catalog : List CatalogExercise} {e : CatalogExercise}
    (h : catalog.reverse.find? p = some e) : e ∈ catalog :=
  List.mem_reverse.mp (List.mem_of_find?_eq_some h)

theorem mem_of_lookupById {catalog : List CatalogExercise} {i : String}
    {e : CatalogExercise} (h : lookupById catalog i = some e) :
    e ∈ catalog ∧ e.id = i := by
  unfold lookupById at h
  refine ⟨mem_of_find?_reverse h, ?_⟩
  have hp := List.find?_some h
  simpa using hp

theorem lookupById_isSome_of_mem {catalog : List CatalogExercise}
    {e : CatalogExercise} (hmem : e ∈ catalog) :
    (lookupById catalog e.id).isSome = true := by
  unfold lookupById
  rw [List.find?_isSome]
  exact ⟨e, List.mem_reverse.mpr hmem, by simp⟩

theorem tier1_inCatalog {m : ExerciseMatcher} {pid : Option String} {r : MatchResult}
    (h : tier1 m pid = some r) : resultInCatalog m r := by
  cases pid with
  | none => cases h
  | some p =>
    simp only [tier1] at h
    by_cases hp : p = ""
    · rw [if_pos hp] at h; cases h
    · rw [if_neg hp] at h
      cases hl : lookupById m.catalog p with
      | none => rw [hl] at h; cases h
      | some ex =>
        rw [hl] at h
        obtain ⟨hmem, hid⟩ := mem_of_lookupById hl
        cases h
        exact ⟨ex, hmem, hid.symm, rfl⟩

theorem tier2_inCatalog {m : ExerciseMatcher} {name : String} {pid : Option String}
    {r : MatchResult} (h : tier2 m name pid = some r) : resultInCatalog m r := by
  unfold tier2 at h
  cases hl : lookupByName m.catalog (strToLower name) with
  | none => rw [hl] at h; cases h
  | some ex =>
    rw [hl] at h
    cases h
    exact ⟨ex, mem_of_find?_reverse hl, rfl, rfl⟩

theorem tier3_inCatalog {m : ExerciseMatcher} {name : String} {pid : Option String}
    {r : MatchResult} (h : tier3 m name pid = some r) : resultInCatalog m r := by
  unfold tier3 at h
  cases hl : lookupByNorm m.catalog (normalizeName name) with
  | none => rw [hl] at h; cases h
  | some ex =>
    rw [hl] at h
    cases h
    exact ⟨ex, mem_of_find?_reverse hl, rfl, rfl⟩

theorem bestFuzzyGo_mem (nq : String) :
    ∀ (rest : List CatalogExercise) (e : CatalogExercise) (d : Nat),
      (bestFuzzyGo nq rest e d).1 = e ∨ (bestFuzzyGo nq rest e d).1 ∈ rest := by
  intro rest
  induction rest with
  | nil => intro e d; exact Or.inl rfl
  | cons x xs ih =>
    intro e d
    simp only [bestFuzzyGo]
    split
    · rcases ih x (levenshteinDistance nq (normalizeName x.name)) with h | h
      · exact Or.inr (by rw [h]; exact List.mem_cons_self x xs)
      · exact Or.inr (List.mem_cons_of_mem x h)
    · rcases ih e d with h | h
      · exact Or.inl h
      · exact Or.inr (List.mem_cons_of_mem x h)

theorem bestFuzzy_mem {catalog : List CatalogExercise} {nq : String}
    {e : CatalogExercise} {d : Nat} (h : bestFuzzy catalog nq = some (e, d)) :
    e ∈ catalog := by
  cases catalog with
  | nil => cases h
  | cons x xs =>
    simp only [bestFuzzy] at h
    have h' : (bestFuzzyGo nq xs x (levenshteinDistance nq (normalizeName x.name))).1 = e := by
      rw [Option.some.inj h]
    rcases bestFuzzyGo_mem nq xs x (levenshteinDistance nq (normalizeName x.name)) with hh | hh
    · rw [h'] at hh; exact hh ▸ List.mem_cons_self x xs
    · rw [h'] at hh; exact List.mem_cons_of_mem x hh

theorem tier4_inCatalog {m : ExerciseMatcher} {name : String} {pid : Option String}
    {r : MatchResult} (h : tier4 m name pid = some r) : resultInCatalog m r := by
  unfold tier4 at h
  cases hb : bestFuzzy m.catalog (normalizeName name) with
  | none => rw [hb] at h; cases h
  | some p =>
    obtain ⟨ex, d⟩ := p
    rw [hb] at h
    have h' : (if d ≤ 5 then
        some (⟨ex.id, ex.name, .fuzzy, max (1 / 2) (1 - (d : Rat) / 10), pid,
          jsTruthyStr pid⟩ : MatchResult)
      else none) = some r := h
    by_cases hd : d ≤ 5
    · rw [if_pos hd] at h'
      cases h'
      exact ⟨ex, bestFuzzy_mem hb, rfl, rfl⟩
    · rw [if_neg hd] at h'; cases h'

theorem tier5_inCatalog {m : ExerciseMatcher} {name : String} {pid : Option String}
    {r : MatchResult} (h : tier5 m name pid = some r) : resultInCatalog m r := by
  unfold tier5 at h
  cases hl : m.catalog.find? (fun ex =>
      let en := normalizeName ex.name
      containsSub en.data (normalizeName name).data
        || containsSub (normalizeName name).data en.data) with
  | none => rw [hl] at h; cases h
  | some ex =>
    rw [hl] at h
    cases h
    exact ⟨ex, List.mem_of_find?_eq_some hl, rfl, rfl⟩

theorem tier6_inCatalog {m : ExerciseMatcher} {pid cat : Option String}
    {tms : Option (List String)} {r : MatchResult}
    (h : tier6 m pid cat tms = some r) : resultInCatalog m r := by
  unfold tier6 at h
  by_cases hh : hintsTruthy cat tms = true
  · rw [if_pos hh] at h
    cases hf : m.catalog.filter (fallbackKeeps cat tms) with
    | nil => rw [hf] at h; cases h
    | cons c0 cs =>
      rw [hf] at h
      cases h
      have : c0 ∈ m.catalog.filter (fallbackKeeps cat tms) := by
        rw [hf]; exact List.mem_cons_self c0 cs
      exact ⟨c0, List.mem_of_mem_filter this, rfl, rfl⟩
  · rw [if_neg hh] at h; cases h

theorem tier7_inCatalog {m : ExerciseMatcher} {pid : Option String} {r : MatchResult}
    (h : tier7 m pid = some r) : resultInCatalog m r := by
  unfold tier7 at h
  cases hc : m.catalog with
  | nil => rw [hc] at h; cases h
  | cons e0 es =>
    rw [hc] at h
    cases h
    exact ⟨e0, by rw [hc]; exact List.mem_cons_self e0 es, rfl, rfl⟩

theorem orElse_eq_some {a b : Option MatchResult} {r : MatchResult}
    (h : (a <|> b) = some r) : a = some r ∨ b = some r := by
  cases a with
  | some x => left; simpa using h
  | none => right; simpa using h

theorem orElse_eq_none {a b : Option MatchResult}
    (h : (a <|> b) = none) : a = none ∧ b = none := by
  cases a with
  | some x => simp at h
  | none => exact ⟨rfl, by simpa using h⟩

/-- On a non-empty catalog `match` always succeeds and the result names a
catalog entry (the tiers guarantee a result). -/
theorem match_total (m : ExerciseMatcher) (hne : m.catalog ≠ []) (name : String)
    (pid cat : Option String) (tms : Option (List String)) :
    ∃ r, m.match name pid cat tms = .ok r ∧ resultInCatalog m r := by
  unfold ExerciseMatcher.match
  cases hchain : (tier1 m pid <|> tier2 m name pid <|> tier3 m name pid
      <|> tier4 m name pid <|> tier5 m name pid
      <|> tier6 m pid cat tms <|> tier7 m pid) with
  | some r =>
    refine ⟨r, rfl, ?_⟩
    rcases orElse_eq_some hchain with h | hchain2
    · exact tier1_inCatalog h
    rcases orElse_eq_some hchain2 with h | hchain3
    · exact tier2_inCatalog h
    rcases orElse_eq_some hchain3 with h | hchain4
    · exact tier3_inCatalog h
    rcases orElse_eq_some hchain4 with h | hchain5
    · exact tier4_inCatalog h
    rcases orElse_eq_some hchain5 with h | hchain6
    · exact tier5_inCatalog h
    rcases orElse_eq_some hchain6 with h | h
    · exact tier6_inCatalog h
    · exact tier7_inCatalog h
  | none =>
    exfalso
    have h7 : tier7 m pid = none :=
      (orElse_eq_none (orElse_eq_none (orElse_eq_none (orElse_eq_none
        (orElse_eq_none (orElse_eq_none hchain).2).2).2).2).2).2
    cases hc : m.catalog with
    | nil => exact hne hc
    | cons e0 es =>
      unfold tier7 at h7
      rw [hc] at h7
      cases h7

/-- The loop invariant of `processSetGroups`: one output group per input
group, each iteration counted exactly once, every emitted group rewritten
to a catalog entry's id and name. -/
theorem processGo_spec (m : ExerciseMatcher) (hne : m.catalog ≠ []) :
    ∀ (gs acc : List MatchableGroup) (v c : Nat),
      ∃ (l : List MatchableGroup) (vv cc : Nat),
        processGo m gs acc v c = .ok (l, vv, cc) ∧
        l.length = acc.length + gs.length ∧ vv + cc = v + c + gs.length ∧
        ∀ g ∈ l, g ∈ acc ∨
          ∃ e ∈ m.catalog, g.exerciseId = e.id ∧ g.exerciseName = some e.name := by
  intro gs
  induction gs with
  | nil =>
    intro acc v c
    exact ⟨acc.reverse, v, c, rfl, by simp, by simp,
      fun g hg => Or.inl (List.mem_reverse.mp hg)⟩
  | cons g rest ih =>
    intro acc v c
    obtain ⟨r, hr, e, hemem, hid, hname⟩ :=
      match_total m hne (g.exerciseName.getD "") (some g.exerciseId) none none
    have hstep : processGo m (g :: rest) acc v c
        = if r.wasCorrection = true then
            processGo m rest (⟨r.exerciseId, some r.exerciseName⟩ :: acc) v (c + 1)
          else processGo m rest (⟨r.exerciseId, some r.exerciseName⟩ :: acc) (v + 1) c := by
      simp only [processGo]
      rw [hr]
    rw [hstep]
    by_cases hw : r.wasCorrection = true
    · rw [if_pos hw]
      obtain ⟨l, vv, cc, hgo, hlen, hsum, hmem⟩ :=
        ih (⟨r.exerciseId, some r.exerciseName⟩ :: acc) v (c + 1)
      refine ⟨l, vv, cc, hgo, by simp at hlen ⊢; omega, by simp only [List.length_cons] at hsum ⊢; omega, ?_⟩
      intro g' hg'
      rcases hmem g' hg' with hacc | hok
      · rcases List.mem_cons.mp hacc with hnew | hold
        · exact Or.inr ⟨e, hemem, by rw [hnew]; exact hid, by rw [hnew]; simpa using hname⟩
        · exact Or.inl hold
      · exact Or.inr hok
    · rw [if_neg hw]
      obtain ⟨l, vv, cc, hgo, hlen, hsum, hmem⟩ :=
        ih (⟨r.exerciseId, some r.exerciseName⟩ :: acc) (v + 1) c
      refine ⟨l, vv, cc, hgo, by simp at hlen ⊢; omega, by simp only [List.length_cons] at hsum ⊢; omega, ?_⟩
      intro g' hg'
      rcases hmem g' hg' with hacc | hok
      · rcases List.mem_cons.mp hacc with hnew | hold
        · exact Or.inr ⟨e, hemem, by rw [hnew]; exact hid, by rw [hnew]; simpa using hname⟩
        · exact Or.inl hold
      · exact Or.inr hok

/-- **C9**: on a non-empty catalog `processSetGroups` returns stats with
`failed = 0`, `total` the number of inputs, `valid + corrected = total`,
and every returned set-group carries the id and the name of some catalog
entry, the id resolving through the id index. -/
theorem process_set_groups_stats (m : ExerciseMatcher)
    (gs : List MatchableGroup) (hne : m.catalog ≠ []) :
    ∃ out : List MatchableGroup × MatchStats,
      processSetGroups m gs = .ok out ∧
      out.2.failed = 0 ∧ out.2.total = gs.length ∧
      out.2.valid + out.2.corrected = out.2.total ∧
      ∀ g ∈ out.1,
        (∃ e ∈ m.catalog, g.exerciseId = e.id ∧ g.exerciseName = some e.name) ∧
        (lookupById m.catalog g.exerciseId).isSome = true := by
  obtain ⟨l, vv, cc, hgo, hlen, hsum, hmem⟩ := processGo_spec m hne gs [] 0 0
  refine ⟨(l, ⟨gs.length, vv, cc, 0⟩), ?_, rfl, rfl, by simpa using hsum, ?_⟩
  · unfold processSetGroups
    rw [hgo]
    rfl
  · intro g hg
    rcases hmem g hg with hacc | ⟨e, hemem, hid, hname⟩
    · cases hacc
    · refine ⟨⟨e, hemem, hid, hname⟩, ?_⟩
      rw [hid]
      exact lookupById_isSome_of_mem hemem

/-- Witness for C9 on the bench catalog with one bogus-id group. -/
theorem process_set_groups_stats_witness :
    mBench.catalog ≠ [] ∧
    ∃ out : List MatchableGroup × MatchStats,
      processSetGroups mBench [⟨"bogus", some "Barbell Bench Press"⟩] = .ok out ∧
      out.2.failed = 0 ∧ out.2.total = [(⟨"bogus", some "Barbell Bench Press"⟩ : MatchableGroup)].length ∧
      out.2.valid + out.2.corrected = out.2.total ∧
      ∀ g ∈ out.1,
        (∃ e ∈ mBench.catalog, g.exerciseId = e.id ∧ g.exerciseName = some e.name) ∧
        (lookupById mBench.catalog g.exerciseId).isSome = true :=
  ⟨by decide, process_set_groups_stats mBench [⟨"bogus", some "Barbell Bench Press"⟩] (by decide)⟩

/-! ## The fuzzy scan computes the first global minimum (C6) -/

theorem tier5_matchType {m : ExerciseMatcher} {name : String} {pid : Option String}
    {r : MatchResult} (h : tier5 m name pid = some r) : r.matchType = .substring := by
  unfold tier5 at h
  cases hl : m.catalog.find? (fun ex =>
      let en := normalizeName ex.name
      containsSub en.data (normalizeName name).data
        || containsSub (normalizeName name).data en.data) with
  | none => rw [hl] at h; cases h
  | some ex => rw [hl] at h; cases h; rfl

theorem tier6_matchType {m : ExerciseMatcher} {pid cat : Option String}
    {tms : Option (List String)} {r : MatchResult}
    (h : tier6 m pid cat tms = some r) : r.matchType = .categoryFallback := by
  unfold tier6 at h
  by_cases hh : hintsTruthy cat tms = true
  · rw [if_pos hh] at h
    cases hf : m.catalog.filter (fallbackKeeps cat tms) with
    | nil => rw [hf] at h; cases h
    | cons c0 cs => rw [hf] at h; cases h; rfl
  · rw [if_neg hh] at h; cases h

theorem tier7_matchType {m : ExerciseMatcher} {pid : Option String} {r : MatchResult}
    (h : tier7 m pid = some r) : r.matchType = .categoryFallback := by
  unfold tier7 at h
  cases hc : m.catalog with
  | nil => rw [hc] at h; cases h
  | cons e0 es => rw [hc] at h; cases h; rfl

/-- The strict-improvement scan keeps the incumbent on ties, so its result
is the first entry attaining the minimum distance over incumbent and
remainder. -/
theorem bestFuzzyGo_spec (nq : String) :
    ∀ (rest : List CatalogExercise) (e : CatalogExercise) (d : Nat)
      (e' : CatalogExercise) (d' : Nat),
      levenshteinDistance nq (normalizeName e.name) = d →
      bestFuzzyGo nq rest e d = (e', d') →
      levenshteinDistance nq (normalizeName e'.name) = d' ∧
      d' ≤ d ∧
      (∀ y ∈ rest, d' ≤ levenshteinDistance nq (normalizeName y.name)) ∧
      ((e' = e ∧ d' = d) ∨
        ∃ l1 l2, rest = l1 ++ e' :: l2 ∧ d' < d ∧
          ∀ y ∈ l1, d' < levenshteinDistance nq (normalizeName y.name)) := by
  intro rest
  induction rest with
  | nil =>
    intro e d e' d' hd hout
    have he : e = e' := congrArg Prod.fst hout
    have hdd : d = d' := congrArg Prod.snd hout
    subst he
    subst hdd
    exact ⟨hd, Nat.le_refl d, by simp, Or.inl ⟨rfl, rfl⟩⟩
  | cons x xs ih =>
    intro e d e' d' hd hout
    simp only [bestFuzzyGo] at hout
    by_cases hlt : levenshteinDistance nq (normalizeName x.name) < d
    · rw [if_pos hlt] at hout
      obtain ⟨ha, hb, hc, hsplit⟩ := ih x _ e' d' rfl hout
      refine ⟨ha, Nat.le_trans hb (Nat.le_of_lt hlt), ?_, ?_⟩
      · intro y hy
        rcases List.mem_cons.mp hy with hy | hy
        · rw [hy]; exact hb
        · exact hc y hy
      · rcases hsplit with ⟨hex, hdx⟩ | ⟨l1, l2, hsp, hlt2, hl1⟩
        · refine Or.inr ⟨[], xs, ?_, ?_, by simp⟩
          · rw [hex]; rfl
          · rw [hdx]; exact hlt
        · refine Or.inr ⟨x :: l1, l2, by rw [hsp]; rfl, Nat.lt_trans hlt2 hlt, ?_⟩
          intro y hy
          rcases List.mem_cons.mp hy with hy | hy
          · rw [hy]; exact hlt2
          · exact hl1 y hy
    · rw [if_neg hlt] at hout
      obtain ⟨ha, hb, hc, hsplit⟩ := ih e d e' d' hd hout
      refine ⟨ha, hb, ?_, ?_⟩
      · intro y hy
        rcases List.mem_cons.mp hy with hy | hy
        · rw [hy]; exact Nat.le_trans hb (Nat.le_of_not_lt hlt)
        · exact hc y hy
      · rcases hsplit with h | ⟨l1, l2, hsp, hlt2, hl1⟩
        · exact Or.inl h
        · refine Or.inr ⟨x :: l1, l2, by rw [hsp]; rfl, hlt2, ?_⟩
          intro y hy
          rcases List.mem_cons.mp hy with hy | hy
          · rw [hy]; exact Nat.lt_of_lt_of_le hlt2 (Nat.le_of_not_lt hlt)
          · exact hl1 y hy

/-- The fuzzy scan over the catalog delivers the global minimum distance
and the first entry attaining it. -/
theorem bestFuzzy_spec {catalog : List CatalogExercise} {nq : String}
    {e : CatalogExercise} {d : Nat} (h : bestFuzzy catalog nq = some (e, d)) :
    e ∈ catalog ∧ levenshteinDistance nq (normalizeName e.name) = d ∧
    (∀ y ∈ catalog, d ≤ levenshteinDistance nq (normalizeName y.name)) ∧
    ∃ l1 l2, catalog = l1 ++ e :: l2 ∧
      ∀ y ∈ l1, d < levenshteinDistance nq (normalizeName y.name) := by
  cases catalog with
  | nil => cases h
  | cons x xs =>
    simp only [bestFuzzy] at h
    have hout : bestFuzzyGo nq xs x (levenshteinDistance nq (normalizeName x.name)) = (e, d) :=
      Option.some.inj h
    obtain ⟨ha, hb, hc, hsplit⟩ := bestFuzzyGo_spec nq xs x _ e d rfl hout
    refine ⟨?_, ha, ?_, ?_⟩
    · rcases hsplit with ⟨hex, _⟩ | ⟨l1, l2, hsp, _, _⟩
      · rw [hex]; exact List.mem_cons_self x xs
      · exact List.mem_cons_of_mem x (by rw [hsp]; exact List.mem_append_right l1 (List.mem_cons_self e l2))
    · intro y hy
      rcases List.mem_cons.mp hy with hy | hy
      · rw [hy]; exact hb
      · exact hc y hy
    · rcases hsplit with ⟨hex, hdx⟩ | ⟨l1, l2, hsp, hlt2, hl1⟩
      · refine ⟨[], xs, ?_, by simp⟩
        rw [hex]; rfl
      · refine ⟨x :: l1, l2, by rw [hsp]; rfl, ?_⟩
        intro y hy
        rcases List.mem_cons.mp hy with hy | hy
        · rw [hy]; exact hlt2
        · exact hl1 y hy

/-- **C6**: when the query reaches the fuzzy tier, the code has compared
the normalized query's edit distance to every catalog entry; the scan's
result attains the global minimum `d` and is the first entry doing so; a
fuzzy result comes back iff `d ≤ 5`, with
`confidence = max(0.5, 1 - d * 0.1)`; for `d > 5` whatever does come back
is not a fuzzy match. -/
theorem match_fuzzy_tier (m : ExerciseMatcher) (name : String) (pid cat : Option String)
    (tms : Option (List String)) (e : CatalogExercise) (d : Nat)
    (h1 : tier1 m pid = none) (h2 : tier2 m name pid = none)
    (h3 : tier3 m name pid = none)
    (hb : bestFuzzy m.catalog (normalizeName name) = some (e, d)) :
    e ∈ m.catalog ∧
    levenshteinDistance (normalizeName name) (normalizeName e.name) = d ∧
    (∀ y ∈ m.catalog, d ≤ levenshteinDistance (normalizeName name) (normalizeName y.name)) ∧
    (∃ l1 l2, m.catalog = l1 ++ e :: l2 ∧
      ∀ y ∈ l1, d < levenshteinDistance (normalizeName name) (normalizeName y.name)) ∧
    (d ≤ 5 → m.match name pid cat tms
      = .ok ⟨e.id, e.name, .fuzzy, max (1 / 2) (1 - (d : Rat) / 10), pid, jsTruthyStr pid⟩) ∧
    (5 < d → ∀ r, m.match name pid cat tms = .ok r → r.matchType ≠ .fuzzy) := by
  obtain ⟨hmem, hdist, hmin, hfirst⟩ := bestFuzzy_spec hb
  refine ⟨hmem, hdist, hmin, hfirst, ?_, ?_⟩
  · intro hd5
    have h4if : tier4 m name pid = (if d ≤ 5 then
        some (⟨e.id, e.name, .fuzzy, max (1 / 2) (1 - (d : Rat) / 10), pid,
          jsTruthyStr pid⟩ : MatchResult) else none) := by
      unfold tier4
      rw [hb]
    have h4 : tier4 m name pid
        = some ⟨e.id, e.name, .fuzzy, max (1 / 2) (1 - (d : Rat) / 10), pid,
            jsTruthyStr pid⟩ := by
      rw [h4if, if_pos hd5]
    unfold ExerciseMatcher.match
    rw [h1, h2, h3, h4]
    rfl
  · intro hgt r hr
    have h4if : tier4 m name pid = (if d ≤ 5 then
        some (⟨e.id, e.name, .fuzzy, max (1 / 2) (1 - (d : Rat) / 10), pid,
          jsTruthyStr pid⟩ : MatchResult) else none) := by
      unfold tier4
      rw [hb]
    have hnle : ¬ d ≤ 5 := by omega
    have h4 : tier4 m name pid = none := by
      rw [h4if, if_neg hnle]
    unfold ExerciseMatcher.match at hr
    rw [h1, h2, h3, h4] at hr
    simp only [Option.none_orElse] at hr
    cases hc : (tier5 m name pid <|> tier6 m pid cat tms <|> tier7 m pid) with
    | none => rw [hc] at hr; cases hr
    | some rr =>
      rw [hc] at hr
      cases hr
      rcases orElse_eq_some hc with h | hc2
      · rw [tier5_matchType h]; intro hh; cases hh
      rcases orElse_eq_some hc2 with h | h
      · rw [tier6_matchType h]; intro hh; cases hh
      · rw [tier7_matchType h]; intro hh; cases hh

set_option maxRecDepth 4000 in
/-- Witness for C6: the spec's one-character-deleted bench-press query at
distance 1, confidence `0.9 ≥ 0.5`. -/
theorem match_fuzzy_tier_witness :
    bestFuzzy mBench.catalog (normalizeName "Barbell Bench Pres") = some (benchEntry, 1) ∧
    ExerciseMatcher.match mBench "Barbell Bench Pres" none none none
      = .ok ⟨"bp", "Barbell Bench Press", .fuzzy, max (1 / 2) (1 - ((1 : Nat) : Rat) / 10),
          none, jsTruthyStr none⟩ ∧
    max (1 / 2 : Rat) (1 - ((1 : Nat) : Rat) / 10) ≥ 1 / 2 :=
  ⟨by decide, (match_fuzzy_tier mBench "Barbell Bench Pres" none none none benchEntry 1
      rfl rfl rfl (by decide)).2.2.2.2.1 (by decide), le_max_left _ _⟩

/-! ## The empty normalized query (C10) -/

theorem containsSub_nil (hay : List Char) : containsSub [] hay = true := by
  cases hay with
  | nil => rfl
  | cons h t => simp [containsSub, listStartsWith]

theorem levNextRow_nil (bc : Char) (i : Nat) (prev : List Nat) :
    levNextRow bc [] i prev = [i] := by
  unfold levNextRow
  cases prev with
  | nil => rfl
  | cons p0 prest => rfl

theorem lev_fold_empty : ∀ (l : List Char) (row : List Nat) (n : Nat), l ≠ [] →
    l.foldl (fun (acc : List Nat × Nat) bc => (levNextRow bc [] (acc.2 + 1) acc.1, acc.2 + 1))
      (row, n) = ([n + l.length], n + l.length) := by
  intro l
  induction l with
  | nil => intro row n h; cases h rfl
  | cons bc t ih =>
    intro row n _
    rw [List.foldl_cons]
    by_cases ht : t = []
    · subst ht
      simp [levNextRow_nil]
    · rw [ih (levNextRow bc [] (n + 1) row) (n + 1) ht]
      have harith : n + 1 + t.length = n + (t.length + 1) := by omega
      simp [harith]

/-- Against the empty query the whole matrix row `i` collapses to `[i]`,
so the distance is the other string's length. -/
theorem levenshteinDistance_empty_left (s : String) :
    levenshteinDistance "" s = s.data.length := by
  unfold levenshteinDistance
  have hdata : ("" : String).data = [] := rfl
  simp only [hdata]
  cases hs : s.data with
  | nil => rfl
  | cons c t =>
    rw [lev_fold_empty (c :: t) _ 0 (by simp)]
    simp

/-- **C10** (corrected: also needs that no catalog entry's lowercased name
equals the query's and no entry's normalized name is empty — otherwise
tier 2 or 3 answers first, with matchType `exact`/`normalized`). A query
whose normalized form is empty and that misses tiers 1–3 never reaches
the category fallback or last resort: the fuzzy distances degenerate to
the normalized name lengths, so the first shortest-normalized-name entry
comes back as a fuzzy match when the minimum length is at most 5, and
otherwise the first catalog entry comes back as a partial (substring)
match with confidence 0.7, the empty string being a substring of every
name. -/
theorem match_empty_normalized_query (m : ExerciseMatcher) (name : String)
    (pid cat : Option String) (tms : Option (List String))
    (e e0 : CatalogExercise) (es : List CatalogExercise) (d : Nat)
    (hcat : m.catalog = e0 :: es)
    (hnorm : normalizeName name = "")
    (h1 : tier1 m pid = none)
    (h2 : lookupByName m.catalog (strToLower name) = none)
    (hno : ∀ x ∈ m.catalog, normalizeName x.name ≠ "")
    (hb : bestFuzzy m.catalog (normalizeName name) = some (e, d)) :
    e ∈ m.catalog ∧ (normalizeName e.name).data.length = d ∧
    (∀ y ∈ m.catalog, d ≤ (normalizeName y.name).data.length) ∧
    (d ≤ 5 → m.match name pid cat tms
      = .ok ⟨e.id, e.name, .fuzzy, max (1 / 2) (1 - (d : Rat) / 10), pid, jsTruthyStr pid⟩) ∧
    (5 < d → m.match name pid cat tms
      = .ok ⟨e0.id, e0.name, .substring, 7 / 10, pid, jsTruthyStr pid⟩) := by
  have h2' : tier2 m name pid = none := by
    unfold tier2
    rw [h2]
    rfl
  have h3 : tier3 m name pid = none := by
    unfold tier3
    rw [hnorm]
    have hlook : lookupByNorm m.catalog "" = none := by
      unfold lookupByNorm
      rw [List.find?_eq_none]
      intro x hx
      simpa using hno x (List.mem_reverse.mp hx)
    rw [hlook]
    rfl
  obtain ⟨hmem, hdist, hmin, _⟩ := bestFuzzy_spec hb
  rw [hnorm, levenshteinDistance_empty_left] at hdist
  refine ⟨hmem, hdist, ?_, ?_, ?_⟩
  · intro y hy
    have := hmin y hy
    rwa [hnorm, levenshteinDistance_empty_left] at this
  · intro hd5
    have h4if : tier4 m name pid = (if d ≤ 5 then
        some (⟨e.id, e.name, .fuzzy, max (1 / 2) (1 - (d : Rat) / 10), pid,
          jsTruthyStr pid⟩ : MatchResult) else none) := by
      unfold tier4
      rw [hb]
    have h4 : tier4 m name pid
        = some ⟨e.id, e.name, .fuzzy, max (1 / 2) (1 - (d : Rat) / 10), pid,
            jsTruthyStr pid⟩ := by
      rw [h4if, if_pos hd5]
    unfold ExerciseMatcher.match
    rw [h1, h2', h3, h4]
    rfl
  · intro hgt
    have h4if : tier4 m name pid = (if d ≤ 5 then
        some (⟨e.id, e.name, .fuzzy, max (1 / 2) (1 - (d : Rat) / 10), pid,
          jsTruthyStr pid⟩ : MatchResult) else none) := by
      unfold tier4
      rw [hb]
    have hnle : ¬ d ≤ 5 := by omega
    have h4 : tier4 m name pid = none := by
      rw [h4if, if_neg hnle]
    have h5 : tier5 m name pid
        = some ⟨e0.id, e0.name, .substring, 7 / 10, pid, jsTruthyStr pid⟩ := by
      unfold tier5
      rw [hcat]
      simp only [List.find?, hnorm]
      have hdata : ("" : String).data = [] := rfl
      simp only [hdata, containsSub_nil, Bool.or_true]
      rfl
    unfold ExerciseMatcher.match
    rw [h1, h2', h3, h4, h5]
    rfl

/-- **C10 counterexample**: a catalog entry named `???` normalizes to the
empty string, so the empty-normalized query `!!!` is answered by the
*normalized* tier (confidence 0.95), not the fuzzy or partial tier the
claim predicts. -/
theorem match_empty_normalized_query_cex :
    normalizeName "!!!" = "" ∧
    ExerciseMatcher.match mQm "!!!" none none none
      = .ok ⟨"1", "???", .normalized, 95 / 100, none, false⟩ ∧
    MatchType.normalized ≠ MatchType.fuzzy ∧
    MatchType.normalized ≠ MatchType.substring := by
  refine ⟨rfl, rfl, by decide, by decide⟩

/-- Witness for the corrected C10: a 3-character normalized name gives a
fuzzy hit at distance 3; an 8-character one exceeds the bound and falls
to the substring tier at confidence 0.7. -/
theorem match_empty_normalized_query_witness :
    (normalizeName "!!!" = "" ∧ ∀ x ∈ mRow.catalog, normalizeName x.name ≠ "") ∧
    ExerciseMatcher.match mRow "!!!" none none none
      = .ok ⟨"e1", "Row", .fuzzy, max (1 / 2) (1 - ((3 : Nat) : Rat) / 10), none,
          jsTruthyStr none⟩ ∧
    ExerciseMatcher.match mLong "!!!" none none none
      = .ok ⟨"e1", "Abcdefgh", .substring, 7 / 10, none, jsTruthyStr none⟩ :=
  ⟨⟨rfl, by decide⟩,
   (match_empty_normalized_query mRow "!!!" none none none
      ⟨"e1", "Row", none, none, none⟩ ⟨"e1", "Row", none, none, none⟩ [] 3
      rfl rfl rfl (by decide) (by decide) (by decide)).2.2.2.1 (by decide),
   (match_empty_normalized_query mLong "!!!" none none none
      ⟨"e1", "Abcdefgh", none, none, none⟩ ⟨"e1", "Abcdefgh", none, none, none⟩ [] 8
      rfl rfl rfl (by decide) (by decide) (by decide)).2.2.2.2 (by decide)⟩

end OneWorkout
